import Mathlib

/-!
Formal model of the MemeThis image-degradation pipeline.

The definitions below are a shallow embedding of the orchestration code in
`src/layouts/LogicHelper.ts` (`processImageWithFFmpeg`, `reset`), the
teardown in `src/layouts/MainLayout.tsx` (`componentWillUnmount`), and the
deep-path state-update helper shared by `MainLayout.updateStateAtPath`
(`src/layouts/MainLayout.tsx`) and `AppComponent.setTypedState`
(`src/App.tsx`).

Modelling conventions:
- Byte buffers are `List Nat`.
- The ffmpeg virtual filesystem is an association list from names to bytes.
- The browser environment (`Date.now()`, `Math.random()`, `fetch`, the
  loaded ffmpeg engine) is a record of oracle parameters `Env`; the engine
  itself (`ffmpeg.exec`) is an opaque deterministic function of the input
  bytes, the filter chain and the quality parameter.
- The three failure exits of `processImageWithFFmpeg` are mapped to the
  spec's error taxonomy: the silent early return on a missing/empty source
  is `invalidInput`; the "FFmpeg is not initialized" alert/console branch
  is `engineNotReady`; the "processing failed" branch is `processingFailed`.
-/

namespace MemeThis

/-- The component state of `MainLayout` (`src/layouts/MainLayout.tsx`,
`state = { userInput: {...}, ffmpeg: {...} }`), flattened into one record:
`userInput.uploadedImageSource`, `userInput.isDragging`,
`ffmpeg.isProcessing`, `ffmpeg.commandFileResult`. -/
structure AppState where
  uploadedImageSource : Option String
  isDragging : Bool
  isProcessing : Bool
  commandFileResult : Option String
deriving DecidableEq

/-- The mutable fields of the owner component that the logic helper touches:
`ffmpegFileOutputName` and `state`, plus the browser's registry of object
URLs allocated by `URL.createObjectURL` (which the code never revokes). -/
structure Owner where
  ffmpegFileOutputName : String
  state : AppState
  urls : List String
deriving DecidableEq

/-- One step of the `-vf` filter-chain expression
`scale=iw*F:ih*F,scale=iw/F:ih/F,format=yuv420p` built at
`LogicHelper.ts:99`: multiply both dimensions by a factor, divide both
dimensions by a factor, or force the `yuv420p` pixel format. -/
inductive FilterStep where
  | scaleMul (f : ℚ)
  | scaleDiv (f : ℚ)
  | formatYuv420p
deriving DecidableEq

/-- A token of the flat argument list handed to `ffmpeg.exec`.  Literal
strings stay literal; the filter-chain expression and the numeric quality
are kept structured instead of being rendered to JavaScript float/number
strings. -/
inductive ExecTok where
  | lit (s : String)
  | vf (chain : List FilterStep)
  | num (q : Int)
deriving DecidableEq

/-- Observable effects on the engine's virtual filesystem plus the final
publication of the result URL into the owner state. -/
inductive FsEvent where
  | write (name : String) (bytes : List Nat)
  | exec (args : List ExecTok)
  | read (name : String)
  | delete (name : String)
  | publish (url : String)
deriving DecidableEq

/-- The spec's error taxonomy for `degrade()` failures. -/
inductive DegradeError where
  | invalidInput
  | engineNotReady
  | processingFailed
deriving DecidableEq

/-- Final outcome of one `processImageWithFFmpeg` invocation: an error, or
success carrying the output bytes read back from the virtual filesystem. -/
inductive Outcome where
  | failure (e : DegradeError)
  | success (bytes : List Nat)
deriving DecidableEq

/-- The ffmpeg virtual filesystem: an association list from file names to
byte buffers. -/
abbrev Fs := List (String × List Nat)

/-- `ffmpeg.writeFile name bytes`: (over)write a name. -/
def Fs.write (fs : Fs) (name : String) (bytes : List Nat) : Fs :=
  (name, bytes) :: fs.filter (fun e => e.1 != name)

/-- `ffmpeg.deleteFile name`: remove a name. -/
def Fs.delete (fs : Fs) (name : String) : Fs :=
  fs.filter (fun e => e.1 != name)

/-- `ffmpeg.readFile name`, as an `Option`. -/
def Fs.get (fs : Fs) (name : String) : Option (List Nat) :=
  (fs.find? (fun e => e.1 == name)).map (fun e => e.2)

/-- The browser/runtime environment of one invocation: engine readiness
(`owner.ffmpegInstance` non-null and loaded), `Date.now()`, the value
returned by `Math.random()`, the `fetch`+`blob.arrayBuffer()` step turning
a source string into bytes, and the engine itself as a deterministic
function of input bytes, filter chain and quality. The engine returns
`none` when it produces no output file. -/
structure Env where
  ready : Bool
  ts : Nat
  rand : Nat
  fetch : String → List Nat
  engine : List Nat → List FilterStep → Int → Option (List Nat)

/-- Denominator of the dyadic rational produced by `Math.random()`: the
generator yields `k / 2^53` for some `0 ≤ k < 2^53`. -/
def randDen : Nat := 2 ^ 53

/-- Base-36 fractional digit expansion of the dyadic rational `k / 2^53`,
at most `fuel` digits, stopping early when the remainder is zero.  This
models the digits of `Math.random().toString(36)` after the leading
`"0."` (for values whose expansion terminates within the digit budget this
agrees with JavaScript exactly; longer expansions are truncated rather
than rounded). -/
def base36Digits : Nat → Nat → List Nat
  | 0, _ => []
  | fuel + 1, k =>
    if k = 0 then []
    else (k * 36) / randDen :: base36Digits fuel ((k * 36) % randDen)

/-- The character for one base-36 digit: `0`-`9` then `a`-`z`. -/
def digitChar36 (d : Nat) : Char :=
  if d < 10 then Char.ofNat (48 + d) else Char.ofNat (87 + d)

/-- `Math.random().toString(36).substring(2, 15)` at `LogicHelper.ts:63-65`:
the first thirteen base-36 fractional digits of the random value
`k / 2^53`. -/
def randomToken (k : Nat) : String :=
  String.mk ((base36Digits 13 k).map digitChar36)

/-- The generated output file name
`` `${Date.now()}-FILE-${Math.random().toString(36).substring(2, 15)}.png` ``
(`LogicHelper.ts:63-65`). -/
def outputName (ts : Nat) (k : Nat) : String :=
  toString ts ++ "-FILE-" ++ randomToken k ++ ".png"

/-- `const quality = Math.min(40 + (amount - 3) * 5, 50)`
(`LogicHelper.ts:87`). -/
def qualityOf (amount : Int) : Int :=
  min (40 + (amount - 3) * 5) 50

/-- The structured filter chain of `LogicHelper.ts:99` with
`scaleFactor = 1 / amount`:
`scale=iw*SF:ih*SF,scale=iw/SF:ih/SF,format=yuv420p`. -/
def chainOf (amount : Int) : List FilterStep :=
  [.scaleMul (1 / (amount : ℚ)), .scaleDiv (1 / (amount : ℚ)), .formatYuv420p]

/-- The flat `ffmpeg.exec` argument list of `LogicHelper.ts:95-103`:
`-i <input> -vf <chain> -q:v <quality> <output>`. -/
def execArgs (input : String) (chain : List FilterStep) (quality : Int)
    (output : String) : List ExecTok :=
  [.lit "-i", .lit input, .lit "-vf", .vf chain, .lit "-q:v", .num quality,
   .lit output]

/-- `URL.createObjectURL(new Blob([bytes]))`, modelled as a deterministic
injection of the bytes into a URL string. -/
def mkObjectURL (bytes : List Nat) : String :=
  "blob:" ++ toString bytes

/-- `const fileSrc = source ?? owner.state.userInput.uploadedImageSource`
(`LogicHelper.ts:60`): JavaScript `??` falls back only on null/undefined. -/
def fileSrcOf (source : Option String) (st : Owner) : Option String :=
  match source with
  | some s => some s
  | none => st.state.uploadedImageSource

/-- `const tmpFiles: string[] = []` (`LogicHelper.ts:90`); nothing is ever
pushed onto it. -/
def tmpFiles : List String := []

/-- Result of one `processImageWithFFmpeg` invocation: the owner after the
run, the virtual filesystem after the run, the ordered effect trace, and
the outcome. -/
structure StepOut where
  owner : Owner
  fs : Fs
  events : List FsEvent
  outcome : Outcome
deriving DecidableEq

/-- Shallow embedding of `api.processImageWithFFmpeg` (`LogicHelper.ts:56-136`):

1. `fileSrc = source ?? state.userInput.uploadedImageSource`; falsy (absent
   or empty) aborts silently (`invalidInput`), touching nothing.
2. A fresh output name is stored on the owner and
   `ffmpeg.isProcessing` is set to `true`.
3. If the engine is not ready, the function alerts and returns
   (`engineNotReady`) — note this happens after step 2.
4. Otherwise the source is fetched and written to the fixed name
   `input.png`, the scale factor/quality/filter chain are computed, the
   engine is invoked once, the output name is read back; a missing result
   resets `isProcessing` and returns (`processingFailed`) with no cleanup;
   a present result is wrapped in an object URL, `input.png` and every
   member of `tmpFiles` are deleted, and the URL is published. -/
def processImageWithFFmpeg (env : Env) (st : Owner) (fs : Fs)
    (amount : Int) (source : Option String) : StepOut :=
  match fileSrcOf source st with
  | none => ⟨st, fs, [], .failure .invalidInput⟩
  | some fileSrc =>
    if fileSrc = "" then ⟨st, fs, [], .failure .invalidInput⟩
    else
      let name := outputName env.ts env.rand
      let st1 : Owner :=
        { st with ffmpegFileOutputName := name,
                  state := { st.state with isProcessing := true } }
      if env.ready = false then
        ⟨st1, fs, [], .failure .engineNotReady⟩
      else
        let bytes := env.fetch fileSrc
        let fs1 := fs.write "input.png" bytes
        let prevFile := "input.png"
        let quality := qualityOf amount
        let chain := chainOf amount
        let args := execArgs prevFile chain quality name
        let inputBytes := (fs1.get prevFile).getD []
        let fs2 :=
          match env.engine inputBytes chain quality with
          | some outBytes => fs1.write name outBytes
          | none => fs1
        let evPre := [FsEvent.write prevFile bytes, FsEvent.exec args]
        match fs2.get name with
        | none =>
          ⟨{ st1 with state := { st1.state with isProcessing := false } },
            fs2, evPre ++ [FsEvent.read name], .failure .processingFailed⟩
        | some outBytes =>
          let url := mkObjectURL outBytes
          let fs3 := tmpFiles.foldl (fun f t => f.delete t) (fs2.delete prevFile)
          let st2 : Owner :=
            { st1 with
              urls := st1.urls ++ [url],
              state := { st1.state with
                         commandFileResult := some url,
                         isProcessing := false } }
          ⟨st2, fs3,
            evPre ++ [FsEvent.read name, FsEvent.delete prevFile]
                  ++ tmpFiles.map FsEvent.delete ++ [FsEvent.publish url],
            .success outBytes⟩

/-- Shallow embedding of `api.reset` (`LogicHelper.ts:140-144`): three
state updates (`userInput.isDragging := false`,
`userInput.uploadedImageSource := null`,
`ffmpeg.commandFileResult := null`); nothing else is touched — in
particular no object URL is revoked and `ffmpeg.isProcessing` is left
as it was. -/
def reset (st : Owner) : Owner :=
  { st with
    state := { st.state with
               isDragging := false,
               uploadedImageSource := none,
               commandFileResult := none } }

/-- Shallow embedding of the filesystem effect of
`MainLayout.componentWillUnmount` (`src/layouts/MainLayout.tsx:130-139`):
delete the single stored output name (the null-instance guard is elided;
this models the branch where the instance exists). -/
def unmountCleanup (st : Owner) (fs : Fs) : Fs :=
  fs.delete st.ffmpegFileOutputName

/-- Dimension semantics of one filter step on rational `(width, height)`. -/
def FilterStep.applyDims : FilterStep → ℚ × ℚ → ℚ × ℚ
  | .scaleMul f, (w, h) => (w * f, h * f)
  | .scaleDiv f, (w, h) => (w / f, h / f)
  | .formatYuv420p, d => d

/-- Dimension semantics of a whole filter chain. -/
def applyChain (chain : List FilterStep) (d : ℚ × ℚ) : ℚ × ℚ :=
  chain.foldl (fun d s => s.applyDims d) d

/-- The file names deleted in an effect trace, in order. -/
def deletedNames (events : List FsEvent) : List String :=
  events.filterMap fun e =>
    match e with
    | .delete n => some n
    | _ => none

/-- The argument list of the first `exec` event in a trace, if any. -/
def firstExecArgs : List FsEvent → Option (List ExecTok)
  | [] => none
  | .exec args :: _ => some args
  | _ :: es => firstExecArgs es

/-- The `-q:v` value carried by an argument list, if any. -/
def argsQuality (args : List ExecTok) : Option Int :=
  args.findSome? fun a =>
    match a with
    | .num q => some q
    | _ => none

/-- Whether an event is an engine invocation. -/
def isExecEvent : FsEvent → Bool
  | .exec _ => true
  | _ => false

/-- A base-36 alphanumeric character: `0`-`9` or `a`-`z`. -/
def isBase36Char (c : Char) : Bool :=
  (('0' ≤ c) && (c ≤ '9')) || (('a' ≤ c) && (c ≤ 'z'))

/-! ### Filesystem lemmas -/

theorem Fs.get_write_self (fs : Fs) (n : String) (b : List Nat) :
    (fs.write n b).get n = some b := by
  simp [Fs.write, Fs.get, List.find?_cons_of_pos]

theorem Fs.get_delete_ne (fs : Fs) {n m : String} (h : m ≠ n) :
    (fs.delete n).get m = fs.get m := by
  induction fs with
  | nil => rfl
  | cons e fs ih =>
    by_cases he : e.1 = n
    · have hm : (e.1 == m) = false := by
        simp [he]
        exact fun hnm => (h hnm.symm).elim
      simp only [Fs.delete, List.filter] at ih ⊢
      simp only [he, bne_self_eq_false]
      simp only [Fs.get, List.find?, hm] at ih ⊢
      exact ih
    · simp only [Fs.delete, List.filter] at ih ⊢
      have : (e.1 != n) = true := by simpa using he
      rw [this]
      by_cases hm : e.1 = m
      · simp [Fs.get, List.find?, hm]
      · have hm' : (e.1 == m) = false := by simpa using hm
        simp only [Fs.get, List.find?, hm'] at ih ⊢
        exact ih

theorem Fs.get_delete_self (fs : Fs) (n : String) :
    (fs.delete n).get n = none := by
  induction fs with
  | nil => rfl
  | cons e fs ih =>
    by_cases he : e.1 = n
    · simpa [Fs.delete, List.filter, he] using ih
    · have h1 : (e.1 != n) = true := by simpa using he
      have h2 : (e.1 == n) = false := by simpa using he
      simp only [Fs.delete, List.filter, h1] at ih ⊢
      simp only [Fs.get, List.find?, h2]
      exact ih

theorem Fs.get_write_ne (fs : Fs) {n m : String} (b : List Nat) (h : m ≠ n) :
    (fs.write n b).get m = fs.get m := by
  have h' : (n == m) = false := by
    simp
    exact fun hnm => (h hnm.symm).elim
  simp only [Fs.write, Fs.get, List.find?, h']
  exact Fs.get_delete_ne fs h

/-! ### Output-name lemmas -/

theorem base36Digits_length_le (fuel k : Nat) :
    (base36Digits fuel k).length ≤ fuel := by
  induction fuel generalizing k with
  | zero => simp [base36Digits]
  | succ fuel ih =>
    by_cases hk : k = 0
    · simp [base36Digits, hk]
    · simp only [base36Digits, if_neg hk, List.length_cons]
      exact Nat.succ_le_succ (ih _)

theorem base36Digits_lt36 (fuel : Nat) :
    ∀ k, k < randDen → ∀ d ∈ base36Digits fuel k, d < 36 := by
  induction fuel with
  | zero => intro k _ d hd; simp [base36Digits] at hd
  | succ fuel ih =>
    intro k hk d hd
    by_cases hk0 : k = 0
    · simp [base36Digits, hk0] at hd
    · simp only [base36Digits, if_neg hk0, List.mem_cons] at hd
      rcases hd with hd | hd
      · subst hd
        rw [Nat.div_lt_iff_lt_mul (by norm_num [randDen] : 0 < randDen)]
        omega
      · exact ih _ (Nat.mod_lt _ (by norm_num [randDen])) d hd

theorem isBase36Char_digitChar36 {d : Nat} (h : d < 36) :
    isBase36Char (digitChar36 d) = true := by
  interval_cases d <;> decide

theorem randomToken_alnum {k : Nat} (hk : k < randDen) :
    ((randomToken k).data.all isBase36Char) = true := by
  rw [List.all_eq_true]
  intro c hc
  have hdata : (randomToken k).data = (base36Digits 13 k).map digitChar36 := rfl
  rw [hdata, List.mem_map] at hc
  obtain ⟨d, hd, rfl⟩ := hc
  exact isBase36Char_digitChar36 (base36Digits_lt36 13 k hk d hd)

theorem randomToken_length_le (k : Nat) : (randomToken k).length ≤ 13 := by
  have : (randomToken k).length = ((base36Digits 13 k).map digitChar36).length := rfl
  rw [this, List.length_map]
  exact base36Digits_length_le 13 k

theorem outputName_length (ts k : Nat) :
    10 ≤ (outputName ts k).length := by
  simp only [outputName, String.length_append]
  have h1 : ("-FILE-" : String).length = 6 := rfl
  have h2 : (".png" : String).length = 4 := rfl
  omega

theorem outputName_ne_input (ts k : Nat) : outputName ts k ≠ "input.png" := by
  intro h
  have h10 := outputName_length ts k
  rw [h] at h10
  exact absurd h10 (by decide)

/-! ### Branch characterizations of `processImageWithFFmpeg` -/

/-- Early-return branch (`LogicHelper.ts:60-61`): a missing or empty source
aborts with no effect at all. -/
theorem processImage_invalid_spec (env : Env) (st : Owner) (fs : Fs)
    (amount : Int) (source : Option String)
    (h : fileSrcOf source st = none ∨ fileSrcOf source st = some "") :
    processImageWithFFmpeg env st fs amount source =
      ⟨st, fs, [], .failure .invalidInput⟩ := by
  rcases h with h | h <;> simp [processImageWithFFmpeg, h]

/-- Not-ready branch (`LogicHelper.ts:68-75`): the engine check fires after
the output name and the processing flag have already been set. -/
theorem processImage_notReady_spec (env : Env) (st : Owner) (fs : Fs)
    (amount : Int) (src : String) (hs : src ≠ "") (hr : env.ready = false) :
    processImageWithFFmpeg env st fs amount (some src) =
      ⟨{ st with ffmpegFileOutputName := outputName env.ts env.rand,
                 state := { st.state with isProcessing := true } },
        fs, [], .failure .engineNotReady⟩ := by
  simp [processImageWithFFmpeg, fileSrcOf, hs, hr]

/-- Success branch (`LogicHelper.ts:77-136`): the full effect of a run in
which the engine produces output bytes. -/
theorem processImage_success_spec (env : Env) (st : Owner) (fs : Fs)
    (amount : Int) (src : String) (out : List Nat)
    (hr : env.ready = true) (hs : src ≠ "")
    (he : env.engine (env.fetch src) (chainOf amount) (qualityOf amount)
            = some out) :
    processImageWithFFmpeg env st fs amount (some src) =
      ⟨{ st with
           ffmpegFileOutputName := outputName env.ts env.rand,
           urls := st.urls ++ [mkObjectURL out],
           state := { st.state with
                      isProcessing := false,
                      commandFileResult := some (mkObjectURL out) } },
        ((fs.write "input.png" (env.fetch src)).write
            (outputName env.ts env.rand) out).delete "input.png",
        [FsEvent.write "input.png" (env.fetch src),
         FsEvent.exec (execArgs "input.png" (chainOf amount)
            (qualityOf amount) (outputName env.ts env.rand)),
         FsEvent.read (outputName env.ts env.rand),
         FsEvent.delete "input.png",
         FsEvent.publish (mkObjectURL out)],
        .success out⟩ := by
  simp only [processImageWithFFmpeg, fileSrcOf, if_neg hs, hr,
    Bool.true_eq_false, if_false, Fs.get_write_self, Option.getD_some, he,
    tmpFiles, List.foldl_nil, List.map_nil, List.append_nil, List.nil_append,
    List.cons_append, List.append_assoc]

/-- Failed branch (`LogicHelper.ts:116-121`) when the engine produces no
output and no stale file sits under the fresh output name: the processing
flag is reset and no cleanup happens — `input.png` stays behind. -/
theorem processImage_failed_spec (env : Env) (st : Owner) (fs : Fs)
    (amount : Int) (src : String)
    (hr : env.ready = true) (hs : src ≠ "")
    (he : env.engine (env.fetch src) (chainOf amount) (qualityOf amount)
            = none)
    (hstale : fs.get (outputName env.ts env.rand) = none) :
    processImageWithFFmpeg env st fs amount (some src) =
      ⟨{ st with
           ffmpegFileOutputName := outputName env.ts env.rand,
           state := { st.state with isProcessing := false } },
        fs.write "input.png" (env.fetch src),
        [FsEvent.write "input.png" (env.fetch src),
         FsEvent.exec (execArgs "input.png" (chainOf amount)
            (qualityOf amount) (outputName env.ts env.rand)),
         FsEvent.read (outputName env.ts env.rand)],
        .failure .processingFailed⟩ := by
  have hget : (fs.write "input.png" (env.fetch src)).get
      (outputName env.ts env.rand) = none := by
    rw [Fs.get_write_ne _ _ (outputName_ne_input env.ts env.rand)]
    exact hstale
  simp only [processImageWithFFmpeg, fileSrcOf, if_neg hs, hr,
    Bool.true_eq_false, if_false, Fs.get_write_self, Option.getD_some, he,
    hget]
  simp

/-! ### The deep-path state-update helper

`MainLayout.updateStateAtPath` (`src/layouts/MainLayout.tsx:99-118`) and
`AppComponent.setTypedState` (`src/App.tsx:25-41`) share one algorithm:
split the key on `'.'`, `structuredClone` the previous state, walk the
path shallow-copying each level, and assign the value at the last key.
We model JavaScript state objects as trees of named fields. -/

/-- A primitive JavaScript state value: string, boolean, or null. -/
inductive JVal where
  | str (s : String)
  | bool (b : Bool)
  | null
deriving DecidableEq

/-- A JavaScript state object tree: a primitive leaf or an object with
named fields. -/
inductive JTree where
  | leaf (v : JVal)
  | node (fields : List (String × JTree))

/-- Object field lookup `obj[k]`. -/
def getField : List (String × JTree) → String → Option JTree
  | [], _ => none
  | (k', t') :: rest, k => if k' = k then some t' else getField rest k

/-- Object field assignment `obj[k] = t` (replace in place, or append a
fresh key). -/
def setField : List (String × JTree) → String → JTree → List (String × JTree)
  | [], k, t => [(k, t)]
  | (k', t') :: rest, k, t =>
    if k' = k then (k, t) :: rest else (k', t') :: setField rest k t

/-- The fields of a value when used as an object: spreading a primitive
(`{ ...primitive }`) yields an empty object. -/
def childFields : JTree → List (String × JTree)
  | .node fields => fields
  | .leaf _ => []

/-- `current[k] = { ...current[k] }` from the walk: the existing child
object, or a fresh empty object when the child is missing or primitive. -/
def childAt (t : JTree) (k : String) : JTree :=
  match getField (childFields t) k with
  | some (.node fields) => .node fields
  | _ => .node []

/-- The path walk of `updateStateAtPath`: shallow-copy along `keys`,
assigning `value` at the last key. -/
def updatePath : JTree → List String → JTree → JTree
  | t, [], _ => t
  | t, k :: ks, v =>
    match ks with
    | [] => .node (setField (childFields t) k v)
    | _ :: _ => .node (setField (childFields t) k (updatePath (childAt t k) ks v))

/-- Read a value at a dot-path. -/
def lookupPath : JTree → List String → Option JTree
  | t, [] => some t
  | t, k :: ks =>
    match getField (childFields t) k with
    | some c => lookupPath c ks
    | none => none

/-- `key.split('.')` (JavaScript `String.prototype.split` at a literal
separator): accumulate characters, breaking at every `'.'`. -/
def splitChars : List Char → List Char → List String
  | [], acc => [String.mk acc.reverse]
  | c :: cs, acc =>
    if c = '.' then String.mk acc.reverse :: splitChars cs []
    else splitChars cs (c :: acc)

/-- The key path of a dotted key string. -/
def splitPath (key : String) : List String :=
  splitChars key.data []

/-- `updateStateAtPath(key, value)` / `setTypedState(key, value)`:
split the dotted key and perform the immutable path update. -/
def updateStateAtPath (t : JTree) (key : String) (value : JTree) : JTree :=
  updatePath t (splitPath key) value

/-- Two key paths diverge when they disagree at some position present in
both (neither is a prefix of the other up to that point). -/
def diverge : List String → List String → Bool
  | a :: p, b :: q => a != b || diverge p q
  | _, _ => false

/-- The initial `MainLayout.state` (`src/layouts/MainLayout.tsx:76-85`)
as a state tree. -/
def mainLayoutInitState : JTree :=
  .node [("userInput", .node [("uploadedImageSource", .leaf .null),
                              ("isDragging", .leaf (.bool false))]),
         ("ffmpeg", .node [("isProcessing", .leaf (.bool false)),
                           ("commandFileResult", .leaf .null)])]

theorem getField_setField_self (fs : List (String × JTree)) (k : String)
    (t : JTree) : getField (setField fs k t) k = some t := by
  induction fs with
  | nil => simp [setField, getField]
  | cons e rest ih =>
    obtain ⟨k', t'⟩ := e
    by_cases h : k' = k
    · subst h
      simp [setField, getField]
    · simp [setField, getField, h, ih]

theorem getField_setField_ne (fs : List (String × JTree)) (k m : String)
    (t : JTree) (h : m ≠ k) :
    getField (setField fs k t) m = getField fs m := by
  have h' : ¬(k = m) := fun hh => h hh.symm
  induction fs with
  | nil => simp [setField, getField, h']
  | cons e rest ih =>
    obtain ⟨k', t'⟩ := e
    by_cases he : k' = k
    · subst he
      simp [setField, getField, h']
    · by_cases hm : k' = m
      · subst hm
        simp [setField, getField, h]
      · simp [setField, getField, he, hm, ih]

theorem lookupPath_childAt (t : JTree) (k q : String) (qs : List String) :
    lookupPath (childAt t k) (q :: qs) = lookupPath t (k :: q :: qs) := by
  cases t with
  | leaf v => simp [childAt, childFields, getField, lookupPath]
  | node fields =>
    cases hg : getField fields k with
    | none => simp [childAt, childFields, lookupPath, hg, getField]
    | some c =>
      cases c with
      | node f2 => simp [childAt, childFields, lookupPath, hg]
      | leaf v => simp [childAt, childFields, lookupPath, hg, getField]

theorem lookupPath_updatePath_self (p : List String) (t v : JTree)
    (hp : p ≠ []) : lookupPath (updatePath t p v) p = some v := by
  induction p generalizing t with
  | nil => exact absurd rfl hp
  | cons k ks ih =>
    cases ks with
    | nil =>
      simp [updatePath, lookupPath, childFields, getField_setField_self]
    | cons k2 ks2 =>
      simp only [updatePath, lookupPath, childFields, getField_setField_self]
      exact ih (childAt t k) (by simp)

theorem lookupPath_updatePath_frame (p : List String) :
    ∀ (q : List String) (t v : JTree), diverge p q = true →
      lookupPath (updatePath t p v) q = lookupPath t q := by
  induction p with
  | nil => intro q t v h; simp [diverge] at h
  | cons k ks ih =>
    intro q t v h
    cases q with
    | nil => simp [diverge] at h
    | cons b qs =>
      by_cases hkb : k = b
      · subst hkb
        have hd : diverge ks qs = true := by simpa [diverge] using h
        cases ks with
        | nil => simp [diverge] at hd
        | cons k2 ks2 =>
          cases qs with
          | nil => simp [diverge] at hd
          | cons b2 qs2 =>
            have hupd : updatePath t (k :: k2 :: ks2) v
                = .node (setField (childFields t) k
                    (updatePath (childAt t k) (k2 :: ks2) v)) := rfl
            have h1 : lookupPath (JTree.node (setField (childFields t) k
                  (updatePath (childAt t k) (k2 :: ks2) v))) (k :: b2 :: qs2)
                = lookupPath (updatePath (childAt t k) (k2 :: ks2) v)
                    (b2 :: qs2) := by
              simp [lookupPath, childFields, getField_setField_self]
            rw [hupd, h1, ih (b2 :: qs2) (childAt t k) v hd, lookupPath_childAt]
      · cases ks with
        | nil =>
          simp only [updatePath, lookupPath, childFields]
          rw [getField_setField_ne _ _ _ _ (fun hh => hkb hh.symm)]
        | cons k2 ks2 =>
          have hupd : updatePath t (k :: k2 :: ks2) v
              = .node (setField (childFields t) k
                  (updatePath (childAt t k) (k2 :: ks2) v)) := rfl
          rw [hupd]
          simp only [lookupPath, childFields]
          rw [getField_setField_ne _ _ _ _ (fun hh => hkb hh.symm)]

/-! ### Trace helpers valid on every ready-engine run -/

/-- On every run with a non-empty source and a ready engine, whatever the
engine does, the trace contains a first `exec` whose argument list is the
flat `-i input.png -vf <chain> -q:v <quality> <output>` list. -/
theorem firstExec_of_ready (env : Env) (st : Owner) (fs : Fs) (amount : Int)
    (src : String) (hr : env.ready = true) (hs : src ≠ "") :
    firstExecArgs (processImageWithFFmpeg env st fs amount (some src)).events
      = some (execArgs "input.png" (chainOf amount) (qualityOf amount)
          (outputName env.ts env.rand)) := by
  simp only [processImageWithFFmpeg, fileSrcOf, if_neg hs, hr,
    Bool.true_eq_false, if_false, Fs.get_write_self, Option.getD_some]
  cases henv : env.engine (env.fetch src) (chainOf amount) (qualityOf amount) with
  | some out =>
    simp only [henv, Fs.get_write_self]
    simp [firstExecArgs, tmpFiles]
  | none =>
    simp only [henv]
    cases hget : (fs.write "input.png" (env.fetch src)).get
        (outputName env.ts env.rand) with
    | none => simp only [hget]; simp [firstExecArgs]
    | some stale => simp only [hget]; simp [firstExecArgs, tmpFiles]

/-- On every run with a non-empty source and a ready engine, the engine is
invoked exactly once. -/
theorem execCount_of_ready (env : Env) (st : Owner) (fs : Fs) (amount : Int)
    (src : String) (hr : env.ready = true) (hs : src ≠ "") :
    ((processImageWithFFmpeg env st fs amount (some src)).events.filter
      isExecEvent).length = 1 := by
  simp only [processImageWithFFmpeg, fileSrcOf, if_neg hs, hr,
    Bool.true_eq_false, if_false, Fs.get_write_self, Option.getD_some]
  cases henv : env.engine (env.fetch src) (chainOf amount) (qualityOf amount) with
  | some out =>
    simp only [henv, Fs.get_write_self]
    simp [isExecEvent, tmpFiles]
  | none =>
    simp only [henv]
    cases hget : (fs.write "input.png" (env.fetch src)).get
        (outputName env.ts env.rand) with
    | none => simp only [hget]; simp [isExecEvent]
    | some stale => simp only [hget]; simp [isExecEvent, tmpFiles]

/-- On every run with a non-empty source, whatever the engine state, the
owner's stored output name after the run is the generated one. -/
theorem outputName_of_some_src (env : Env) (st : Owner) (fs : Fs)
    (amount : Int) (src : String) (hs : src ≠ "") :
    (processImageWithFFmpeg env st fs amount (some src)).owner.ffmpegFileOutputName
      = outputName env.ts env.rand := by
  simp only [processImageWithFFmpeg, fileSrcOf, if_neg hs]
  cases hr : env.ready with
  | false => simp
  | true =>
    simp only [Bool.true_eq_false, if_false, Fs.get_write_self,
      Option.getD_some]
    cases henv : env.engine (env.fetch src) (chainOf amount) (qualityOf amount) with
    | some out =>
      simp only [henv, Fs.get_write_self]
    | none =>
      simp only [henv]
      cases hget : (fs.write "input.png" (env.fetch src)).get
          (outputName env.ts env.rand) with
      | none => simp only [hget]
      | some stale => simp only [hget]

/-! ### Concrete fixtures for witnesses and counterexamples -/

/-- A concrete fetch oracle. -/
def fetch0 : String → List Nat := fun _ => [7, 7, 7]

/-- A concrete succeeding engine oracle. -/
def engine0 : List Nat → List FilterStep → Int → Option (List Nat) :=
  fun b _ _ => some (0 :: b)

/-- A ready environment with `Date.now() = 0` and `Math.random() = 0.25`
(the double `2^51 / 2^53`). -/
def env0 : Env := ⟨true, 0, 2 ^ 51, fetch0, engine0⟩

/-- The same environment before the engine finished loading. -/
def envNR : Env := ⟨false, 0, 2 ^ 51, fetch0, engine0⟩

/-- A second ready environment differing from `env0` only in timestamp and
randomness (`Math.random() = 0.5`). -/
def env1 : Env := ⟨true, 999, 2 ^ 52, fetch0, engine0⟩

/-- The initial owner: empty output name, pristine state, no URLs. -/
def st0 : Owner := ⟨"", ⟨none, false, false, none⟩, []⟩

/-- An owner holding the result of an earlier run. -/
def stPrev : Owner :=
  ⟨"111-FILE-abc.png", ⟨some "src", false, false, some "blob:old"⟩,
    ["blob:old"]⟩

/-- The spec's quality formula, following its words exactly:
`clamp(40 + (amount - 3) * 5, lower = 40, upper = 50)`. -/
def specQualityClamp (amount : Int) : Int :=
  max 40 (min (40 + (amount - 3) * 5) 50)

/-- A filesystem carrying the output of an earlier run. -/
def fsPrev : Fs := [("111-FILE-abc.png", [9])]

/-! ### Claims -/

/-- **C1** (counterexample): the claim that the quality passed to the
engine equals `clamp(40 + (amount-3)*5, 40, 50)` — in particular that
`amount = 1` yields 40 — is false on the code: at `amount = 1` the engine
receives quality 30, below the claimed lower clamp. -/
theorem C1_counterexample :
    (firstExecArgs (processImageWithFFmpeg env0 st0 [] 1 (some "x")).events).bind
        argsQuality = some 30
    ∧ specQualityClamp 1 = 40
    ∧ (firstExecArgs (processImageWithFFmpeg env0 st0 [] 1 (some "x")).events).bind
        argsQuality ≠ some (specQualityClamp 1) := by
  have h1 : (firstExecArgs
      (processImageWithFFmpeg env0 st0 [] 1 (some "x")).events).bind
        argsQuality = some 30 := rfl
  refine ⟨h1, by decide, ?_⟩
  rw [h1]
  decide

/-- **C1** amended: for every amount (with a ready engine and usable
source), the quality passed to the engine is `min (40 + (amount-3)*5) 50`
— clamped above at 50 only, with no lower clamp at 40: amount 1 yields 30,
amount 3 yields 40, amounts 5 and 10 yield 50. -/
theorem C1_amended_quality (env : Env) (st : Owner) (fs : Fs) (amount : Int)
    (src : String) (hr : env.ready = true) (hs : src ≠ "") :
    (firstExecArgs (processImageWithFFmpeg env st fs amount (some src)).events).bind
        argsQuality = some (qualityOf amount)
    ∧ qualityOf amount = min (40 + (amount - 3) * 5) 50
    ∧ qualityOf 1 = 30 ∧ qualityOf 3 = 40 ∧ qualityOf 5 = 50
    ∧ qualityOf 10 = 50 := by
  refine ⟨?_, rfl, by decide, by decide, by decide, by decide⟩
  rw [firstExec_of_ready env st fs amount src hr hs]
  rfl

/-- Witness for C1 amended at `amount = 5` on concrete fixtures. -/
theorem C1_amended_quality_witness :
    (firstExecArgs (processImageWithFFmpeg env0 st0 [] 5 (some "x")).events).bind
        argsQuality = some (qualityOf 5)
    ∧ qualityOf 5 = min (40 + ((5 : Int) - 3) * 5) 50
    ∧ qualityOf 1 = 30 ∧ qualityOf 3 = 40 ∧ qualityOf 5 = 50
    ∧ qualityOf 10 = 50 :=
  C1_amended_quality env0 st0 [] 5 "x" rfl (by decide)

/-- **C2** (counterexample): calling before the engine is ready does fail
with `EngineNotReady`, but not before mutating shared state: the stored
output file name is overwritten and the ProcessingFlag is set to true and
left true. -/
theorem C2_counterexample :
    (processImageWithFFmpeg envNR st0 [] 3 (some "x")).outcome
        = .failure .engineNotReady
    ∧ (processImageWithFFmpeg envNR st0 [] 3 (some "x")).owner.state.isProcessing
        = true
    ∧ (processImageWithFFmpeg envNR st0 [] 3 (some "x")).owner.ffmpegFileOutputName
        ≠ st0.ffmpegFileOutputName := by
  decide

/-- **C2** amended: a call before the engine is ready fails with
`EngineNotReady`, performs no virtual-filesystem operation and never
invokes the engine, but only after storing a freshly generated output
file name and setting the ProcessingFlag to true — and the flag is left
true, not false. -/
theorem C2_amended (env : Env) (st : Owner) (fs : Fs) (amount : Int)
    (src : String) (hs : src ≠ "") (hr : env.ready = false) :
    processImageWithFFmpeg env st fs amount (some src) =
      ⟨{ st with ffmpegFileOutputName := outputName env.ts env.rand,
                 state := { st.state with isProcessing := true } },
        fs, [], .failure .engineNotReady⟩ :=
  processImage_notReady_spec env st fs amount src hs hr

/-- Witness for C2 amended on concrete fixtures. -/
theorem C2_amended_witness :
    processImageWithFFmpeg envNR st0 [] 3 (some "x") =
      ⟨{ st0 with ffmpegFileOutputName := outputName envNR.ts envNR.rand,
                  state := { st0.state with isProcessing := true } },
        [], [], .failure .engineNotReady⟩ :=
  C2_amended envNR st0 [] 3 "x" (by decide) rfl

/-- **C3** (confirmed): with a ready engine and usable source, for every
`amount ≥ 1` the engine is invoked exactly once, with the flat argument
list `-i input.png -vf <chain> -q:v <quality> <output>`; the chain scales
both dimensions by `scaleFactor = 1/amount`, then by its inverse —
restoring the original dimensions — and then forces `yuv420p`. -/
theorem C3_single_invocation (env : Env) (st : Owner) (fs : Fs)
    (amount : Int) (src : String) (h1 : 1 ≤ amount)
    (hr : env.ready = true) (hs : src ≠ "") :
    ((processImageWithFFmpeg env st fs amount (some src)).events.filter
        isExecEvent).length = 1
    ∧ firstExecArgs (processImageWithFFmpeg env st fs amount (some src)).events
        = some (execArgs "input.png" (chainOf amount) (qualityOf amount)
            (outputName env.ts env.rand))
    ∧ chainOf amount = [.scaleMul (1 / (amount : ℚ)),
        .scaleDiv (1 / (amount : ℚ)), .formatYuv420p]
    ∧ ∀ w h : ℚ, applyChain (chainOf amount) (w, h) = (w, h) := by
  refine ⟨execCount_of_ready env st fs amount src hr hs,
          firstExec_of_ready env st fs amount src hr hs, rfl, ?_⟩
  intro w h
  have ha : (amount : ℚ) ≠ 0 := Int.cast_ne_zero.mpr (by omega)
  have hf : (1 : ℚ) / (amount : ℚ) ≠ 0 := one_div_ne_zero ha
  simp only [applyChain, chainOf, List.foldl_cons, List.foldl_nil,
    FilterStep.applyDims, Prod.mk.injEq]
  constructor <;> rw [mul_div_cancel_right₀ _ hf]

/-- Witness for C3 at `amount = 3`, dimensions `(100, 50)`. -/
theorem C3_single_invocation_witness :
    ((processImageWithFFmpeg env0 st0 [] 3 (some "x")).events.filter
        isExecEvent).length = 1
    ∧ firstExecArgs (processImageWithFFmpeg env0 st0 [] 3 (some "x")).events
        = some (execArgs "input.png" (chainOf 3) (qualityOf 3)
            (outputName 0 (2 ^ 51)))
    ∧ chainOf 3 = [.scaleMul (1 / ((3 : Int) : ℚ)),
        .scaleDiv (1 / ((3 : Int) : ℚ)), .formatYuv420p]
    ∧ applyChain (chainOf 3) (100, 50) = (100, 50) := by
  have h := C3_single_invocation env0 st0 [] 3 "x" (by decide) rfl (by decide)
  exact ⟨h.1, h.2.1, h.2.2.1, h.2.2.2 100 50⟩

/-- **C4** (confirmed): a missing or empty raw-image source fails with
`InvalidInput` with no filesystem event, an unchanged filesystem and a
completely unchanged owner state. -/
theorem C4_invalid_input (env : Env) (st : Owner) (fs : Fs) (amount : Int)
    (source : Option String)
    (h : fileSrcOf source st = none ∨ fileSrcOf source st = some "") :
    processImageWithFFmpeg env st fs amount source =
      ⟨st, fs, [], .failure .invalidInput⟩ :=
  processImage_invalid_spec env st fs amount source h

/-- Witness for C4 with an empty source string. -/
theorem C4_invalid_input_witness :
    processImageWithFFmpeg env0 st0 [] 3 (some "") =
      ⟨st0, [], [], .failure .invalidInput⟩ :=
  C4_invalid_input env0 st0 [] 3 (some "") (Or.inr rfl)

/-- **C5** (counterexample): with `Math.random() = 0.25` (the double
`2^51/2^53`, whose base-36 expansion is `0.9`), the generated token is
`"9"` of length 1 — the name has the claimed `{ts}-FILE-{token}.png` shape
but the token length is below 8, so same-millisecond collisions are not
excluded. -/
theorem C5_counterexample :
    (processImageWithFFmpeg env0 st0 [] 3 (some "x")).owner.ffmpegFileOutputName
        = "0-FILE-9.png"
    ∧ randomToken (2 ^ 51) = "9"
    ∧ ¬ 8 ≤ (randomToken (2 ^ 51)).length := by
  decide

/-- **C5** amended: every invocation with a usable source stores an output
name of the form `{Date.now()}-FILE-{token}.png`, where the token consists
only of base-36 alphanumeric characters and has length at most 13 — but
its length is not guaranteed to be at least 8. -/
theorem C5_amended_name (env : Env) (st : Owner) (fs : Fs) (amount : Int)
    (src : String) (hs : src ≠ "") (hk : env.rand < randDen) :
    (processImageWithFFmpeg env st fs amount (some src)).owner.ffmpegFileOutputName
        = toString env.ts ++ "-FILE-" ++ randomToken env.rand ++ ".png"
    ∧ ((randomToken env.rand).data.all isBase36Char) = true
    ∧ (randomToken env.rand).length ≤ 13 :=
  ⟨outputName_of_some_src env st fs amount src hs,
   randomToken_alnum hk, randomToken_length_le env.rand⟩

/-- Witness for C5 amended on concrete fixtures. -/
theorem C5_amended_name_witness :
    (processImageWithFFmpeg env0 st0 [] 3 (some "x")).owner.ffmpegFileOutputName
        = toString (0 : Nat) ++ "-FILE-" ++ randomToken (2 ^ 51) ++ ".png"
    ∧ ((randomToken (2 ^ 51)).data.all isBase36Char) = true
    ∧ (randomToken (2 ^ 51)).length ≤ 13 :=
  C5_amended_name env0 st0 [] 3 "x" (by decide) (by decide)

/-- **C6** (confirmed): on every successful run, the fixed input file
`input.png` and every intermediate temporary file are gone from the final
filesystem, and in the effect trace their deletions happen strictly before
the publish event. -/
theorem C6_cleanup (env : Env) (st : Owner) (fs : Fs) (amount : Int)
    (src : String) (out : List Nat) (hr : env.ready = true) (hs : src ≠ "")
    (he : env.engine (env.fetch src) (chainOf amount) (qualityOf amount)
        = some out) :
    (processImageWithFFmpeg env st fs amount (some src)).outcome = .success out
    ∧ ((processImageWithFFmpeg env st fs amount (some src)).fs.get "input.png")
        = none
    ∧ (tmpFiles.all (fun t =>
        (((processImageWithFFmpeg env st fs amount (some src)).fs.get t).isNone)))
        = true
    ∧ (processImageWithFFmpeg env st fs amount (some src)).events
        = [FsEvent.write "input.png" (env.fetch src),
           FsEvent.exec (execArgs "input.png" (chainOf amount)
             (qualityOf amount) (outputName env.ts env.rand)),
           FsEvent.read (outputName env.ts env.rand),
           FsEvent.delete "input.png",
           FsEvent.publish (mkObjectURL out)] := by
  rw [processImage_success_spec env st fs amount src out hr hs he]
  exact ⟨rfl, Fs.get_delete_self _ _, rfl, rfl⟩

/-- Witness for C6 on concrete fixtures. -/
theorem C6_cleanup_witness :
    (processImageWithFFmpeg env0 st0 [] 3 (some "x")).outcome
        = .success [0, 7, 7, 7]
    ∧ ((processImageWithFFmpeg env0 st0 [] 3 (some "x")).fs.get "input.png")
        = none
    ∧ (tmpFiles.all (fun t =>
        (((processImageWithFFmpeg env0 st0 [] 3 (some "x")).fs.get t).isNone)))
        = true
    ∧ (processImageWithFFmpeg env0 st0 [] 3 (some "x")).events
        = [FsEvent.write "input.png" (fetch0 "x"),
           FsEvent.exec (execArgs "input.png" (chainOf 3) (qualityOf 3)
             (outputName 0 (2 ^ 51))),
           FsEvent.read (outputName 0 (2 ^ 51)),
           FsEvent.delete "input.png",
           FsEvent.publish (mkObjectURL [0, 7, 7, 7])] :=
  C6_cleanup env0 st0 [] 3 "x" [0, 7, 7, 7] rfl (by decide) rfl

/-- **C7** (confirmed): two runs with the same `(rawImage, amount)` against
the same fetch and engine oracles produce bit-identical output bytes and
identical published result handles, whatever their timestamps, randomness
and prior owner state; only the stored output file name depends on the
randomness. -/
theorem C7_determinism (ea eb : Env) (sta stb : Owner) (fs : Fs)
    (amount : Int) (src : String) (out : List Nat)
    (hra : ea.ready = true) (hrb : eb.ready = true) (hs : src ≠ "")
    (hf : ea.fetch = eb.fetch) (hE : ea.engine = eb.engine)
    (he : ea.engine (ea.fetch src) (chainOf amount) (qualityOf amount)
        = some out) :
    (processImageWithFFmpeg ea sta fs amount (some src)).outcome = .success out
    ∧ (processImageWithFFmpeg eb stb fs amount (some src)).outcome = .success out
    ∧ (processImageWithFFmpeg ea sta fs amount (some src)).owner.state.commandFileResult
        = (processImageWithFFmpeg eb stb fs amount (some src)).owner.state.commandFileResult
    ∧ (processImageWithFFmpeg ea sta fs amount (some src)).owner.ffmpegFileOutputName
        = outputName ea.ts ea.rand
    ∧ (processImageWithFFmpeg eb stb fs amount (some src)).owner.ffmpegFileOutputName
        = outputName eb.ts eb.rand := by
  have he2 : eb.engine (eb.fetch src) (chainOf amount) (qualityOf amount)
      = some out := by
    rw [← hf, ← hE]
    exact he
  rw [processImage_success_spec ea sta fs amount src out hra hs he,
      processImage_success_spec eb stb fs amount src out hrb hs he2]
  exact ⟨rfl, rfl, rfl, rfl, rfl⟩

/-- Witness for C7: the same input through two environments differing in
timestamp, randomness and prior owner state. -/
theorem C7_determinism_witness :
    (processImageWithFFmpeg env0 st0 [] 3 (some "x")).outcome
        = .success [0, 7, 7, 7]
    ∧ (processImageWithFFmpeg env1 stPrev [] 3 (some "x")).outcome
        = .success [0, 7, 7, 7]
    ∧ (processImageWithFFmpeg env0 st0 [] 3 (some "x")).owner.state.commandFileResult
        = (processImageWithFFmpeg env1 stPrev [] 3 (some "x")).owner.state.commandFileResult
    ∧ (processImageWithFFmpeg env0 st0 [] 3 (some "x")).owner.ffmpegFileOutputName
        = outputName 0 (2 ^ 51)
    ∧ (processImageWithFFmpeg env1 stPrev [] 3 (some "x")).owner.ffmpegFileOutputName
        = outputName 999 (2 ^ 52) :=
  C7_determinism env0 env1 st0 stPrev [] 3 "x" [0, 7, 7, 7]
    rfl rfl (by decide) rfl rfl rfl

/-- **C8** (confirmed): `reset()` clears the stored ResultHandle to null,
touches neither the object-URL allocation list (no revocation) nor the
processing flag, and a `degrade()` call on the reset state proceeds to
success. -/
theorem C8_reset (env : Env) (st : Owner) (fs : Fs) (src : String)
    (out : List Nat) (hr : env.ready = true) (hs : src ≠ "")
    (he : env.engine (env.fetch src) (chainOf 3) (qualityOf 3) = some out) :
    (reset st).state.commandFileResult = none
    ∧ (reset st).urls = st.urls
    ∧ (reset st).state.isProcessing = st.state.isProcessing
    ∧ (processImageWithFFmpeg env (reset st) fs 3 (some src)).outcome
        = .success out := by
  refine ⟨rfl, rfl, rfl, ?_⟩
  rw [processImage_success_spec env (reset st) fs 3 src out hr hs he]

/-- Witness for C8 on an owner holding an earlier result and URL. -/
theorem C8_reset_witness :
    (reset stPrev).state.commandFileResult = none
    ∧ (reset stPrev).urls = stPrev.urls
    ∧ (reset stPrev).state.isProcessing = stPrev.state.isProcessing
    ∧ (processImageWithFFmpeg env0 (reset stPrev) [] 3 (some "x")).outcome
        = .success [0, 7, 7, 7] :=
  C8_reset env0 stPrev [] "x" [0, 7, 7, 7] rfl (by decide) rfl

/-- **C9** (confirmed): a successful run deletes only `input.png` — never
its own output (whose generated name cannot be `input.png`) nor an earlier
run's differently-named output, both of which remain in the filesystem —
and unmount teardown removes exactly the stored most-recent output name,
leaving the earlier output untouched. -/
theorem C9_outputs_accumulate (env : Env) (st : Owner) (fs : Fs)
    (amount : Int) (src : String) (out : List Nat) (old : String)
    (hr : env.ready = true) (hs : src ≠ "")
    (he : env.engine (env.fetch src) (chainOf amount) (qualityOf amount)
        = some out)
    (hold1 : old ≠ "input.png") (hold2 : old ≠ outputName env.ts env.rand) :
    deletedNames (processImageWithFFmpeg env st fs amount (some src)).events
        = ["input.png"]
    ∧ outputName env.ts env.rand ≠ "input.png"
    ∧ (processImageWithFFmpeg env st fs amount (some src)).fs.get
        (outputName env.ts env.rand) = some out
    ∧ (processImageWithFFmpeg env st fs amount (some src)).fs.get old
        = fs.get old
    ∧ (unmountCleanup (processImageWithFFmpeg env st fs amount (some src)).owner
        (processImageWithFFmpeg env st fs amount (some src)).fs).get
          (outputName env.ts env.rand) = none
    ∧ (unmountCleanup (processImageWithFFmpeg env st fs amount (some src)).owner
        (processImageWithFFmpeg env st fs amount (some src)).fs).get old
        = (processImageWithFFmpeg env st fs amount (some src)).fs.get old := by
  rw [processImage_success_spec env st fs amount src out hr hs he]
  refine ⟨rfl, outputName_ne_input env.ts env.rand, ?_, ?_, ?_, ?_⟩
  · rw [Fs.get_delete_ne _ (outputName_ne_input env.ts env.rand),
      Fs.get_write_self]
  · rw [Fs.get_delete_ne _ hold1, Fs.get_write_ne _ _ hold2,
      Fs.get_write_ne _ _ hold1]
  · simp only [unmountCleanup]
    exact Fs.get_delete_self _ _
  · simp only [unmountCleanup]
    rw [Fs.get_delete_ne _ hold2]

/-- Witness for C9: a run on a filesystem already holding an earlier
output file. -/
theorem C9_outputs_accumulate_witness :
    deletedNames (processImageWithFFmpeg env0 st0 fsPrev 3 (some "x")).events
        = ["input.png"]
    ∧ outputName 0 (2 ^ 51) ≠ "input.png"
    ∧ (processImageWithFFmpeg env0 st0 fsPrev 3 (some "x")).fs.get
        (outputName 0 (2 ^ 51)) = some [0, 7, 7, 7]
    ∧ (processImageWithFFmpeg env0 st0 fsPrev 3 (some "x")).fs.get
        "111-FILE-abc.png" = fsPrev.get "111-FILE-abc.png"
    ∧ (unmountCleanup (processImageWithFFmpeg env0 st0 fsPrev 3 (some "x")).owner
        (processImageWithFFmpeg env0 st0 fsPrev 3 (some "x")).fs).get
          (outputName 0 (2 ^ 51)) = none
    ∧ (unmountCleanup (processImageWithFFmpeg env0 st0 fsPrev 3 (some "x")).owner
        (processImageWithFFmpeg env0 st0 fsPrev 3 (some "x")).fs).get
          "111-FILE-abc.png"
        = (processImageWithFFmpeg env0 st0 fsPrev 3 (some "x")).fs.get
            "111-FILE-abc.png" :=
  C9_outputs_accumulate env0 st0 fsPrev 3 "x" [0, 7, 7, 7] "111-FILE-abc.png"
    rfl (by decide) rfl (by decide) (by decide)

/-- **C10** (confirmed): the deep-path state-update helper writes exactly
the addressed field: the new value sits at the written key path, while
every key path that diverges from it — every sibling field at every level
— reads back unchanged.  (The helper is pure: the previous state tree is a
distinct value, never mutated.) -/
theorem C10_update_frame (t : JTree) (key other : String) (v : JTree)
    (hd : diverge (splitPath key) (splitPath other) = true) :
    lookupPath (updateStateAtPath t key v) (splitPath key) = some v
    ∧ lookupPath (updateStateAtPath t key v) (splitPath other)
        = lookupPath t (splitPath other) := by
  have hne : splitPath key ≠ [] := by
    intro hnil
    rw [hnil] at hd
    simp [diverge] at hd
  exact ⟨lookupPath_updatePath_self _ _ _ hne,
         lookupPath_updatePath_frame _ _ _ _ hd⟩

/-- Witness for C10: updating `ffmpeg.isProcessing` in the initial
`MainLayout` state leaves the sibling `ffmpeg.commandFileResult`
unchanged. -/
theorem C10_update_frame_witness :
    lookupPath (updateStateAtPath mainLayoutInitState "ffmpeg.isProcessing"
        (.leaf (.bool true))) (splitPath "ffmpeg.isProcessing")
        = some (.leaf (.bool true))
    ∧ lookupPath (updateStateAtPath mainLayoutInitState "ffmpeg.isProcessing"
        (.leaf (.bool true))) (splitPath "ffmpeg.commandFileResult")
        = lookupPath mainLayoutInitState (splitPath "ffmpeg.commandFileResult") :=
  C10_update_frame mainLayoutInitState "ffmpeg.isProcessing"
    "ffmpeg.commandFileResult" (.leaf (.bool true)) (by rfl)

end MemeThis
